import Mathlib

/-!
Verification of the minipyro effect-handler core
(`src/pyro/contrib/minipyro.py`).

The Python source is shallowly embedded below.  Scalar tensor values are
modelled by `Int`; distribution objects, constraint transforms and the
autograd engine are external collaborators of the core and are modelled by
their narrow contracts (a distribution carries the value its `sample()`
call produces in the execution under study, its `log_prob` function and
its `batch_shape`; drawing advances a global draw counter, which models
the consumption of the process-wide RNG state).  Python `None` at
value positions is modelled by `Option.none`; Python exceptions
(`AssertionError`, `NameError`, `TypeError`, `IndexError`) by `Except`.
-/

namespace Minipyro

/-- Python exceptions that the embedded code can raise. -/
inductive PyErr where
  | assertError
  | nameError
  | typeError
  | indexError
deriving DecidableEq, Repr

/-- Contract of a `pyro.distributions` object as used by minipyro: calling it
draws a sample (here: the value this execution's draw produces), `log_prob`
scores a value, `batch_shape` and `expand` support plate broadcasting. -/
structure Dist where
  draw : Int
  logProb : Option Int → Int
  batch_shape : List Nat

/-- Contract of `Distribution.expand(shape)`: a new distribution over the
broadcast batch shape. -/
def Dist.expand (d : Dist) (shape : List Nat) : Dist :=
  { d with batch_shape := shape }

/-- Contract of `torch.distributions.transform_to(constraint)`: a bijection
with a forward map (unconstrained to constrained) and its inverse. -/
structure Constraint where
  fwd : Int → Int
  inv : Int → Int

/-- The `msg["type"]` field: `"sample"` or `"param"`. -/
inductive MsgType where
  | sample
  | param
deriving DecidableEq, Repr

/-- The `msg["fn"]` field: for a sample message the distribution object, for
a param message the closure defined inside `param` (which captures `name`). -/
inductive Descriptor where
  | dist (d : Dist)
  | paramClosure (pname : String)

/-- The `msg["args"]` field: `()` for sample, `(init_value, constraint)` for
param. -/
inductive MsgArgs where
  | noArgs
  | paramArgs (init : Option Int) (c : Constraint)

/-- The message dictionary built by `sample` / `param`.  The `stop` key is
absent initially, which `msg.get("stop")` reads as falsy; it is modelled by
a `Bool` that starts `false`. -/
structure Msg where
  type : MsgType
  name : String
  fn : Descriptor
  args : MsgArgs
  value : Option Int
  stop : Bool

/-- The `OrderedDict` held by a `trace` handler: insertion-ordered mapping
from site name to a snapshot of its message. -/
abbrev TraceMap := List (String × Msg)

/-- Dictionary lookup (`tr[name]`); entries are keyed by site name. -/
def lookup_trace : TraceMap → String → Option Msg
  | [], _ => none
  | (k, v) :: rest, n => if k = n then some v else lookup_trace rest n

/-- Dictionary membership (`name in tr`). -/
def contains_name (tr : TraceMap) (n : String) : Bool :=
  (lookup_trace tr n).isSome

/-- The global `PARAM_STORE`: name to (unconstrained value, constraint). -/
abbrev ParamStore := List (String × Int × Constraint)

/-- Lookup `PARAM_STORE[name]`. -/
def lookup_store : ParamStore → String → Option (Int × Constraint)
  | [], _ => none
  | (k, v) :: rest, n => if k = n then some v else lookup_store rest n

/-- The concrete `Messenger` subclasses: `trace` (with its `self.trace`
mapping), `replay` (with its `self.guide_trace`), `block` (with its
`self.hide_fn`), and `PlateMessenger` (with `self.size` and `self.dim`). -/
inductive Handler where
  | htrace (tr : TraceMap)
  | hreplay (guide_trace : TraceMap)
  | hblock (hide_fn : Msg → Bool)
  | hplate (size : Nat) (dim : Int)

/-- Body of `PlateMessenger.process_message` for a sample message: if the
distribution's batch shape does not already have `size` at the (negative)
index `dim`, left-pad with 1s and set that position to `size`, then expand.
Negative Python indexing `bs[dim]` is `bs[len bs + dim]`. -/
def plate_broadcast (size : Nat) (dim : Int) (d : Dist) : Dist :=
  let bs := d.batch_shape
  if bs.length < (-dim).toNat ∨ bs.get? (bs.length - (-dim).toNat) ≠ some size then
    let padded := List.replicate ((-dim).toNat - bs.length) 1 ++ bs
    d.expand (padded.set (padded.length - (-dim).toNat) size)
  else
    d

/-- The `process_message` hook of each handler kind.  `trace` inherits the
no-op from `Messenger`; `replay` overwrites `msg["value"]` when the name is
in its guide trace; `block` sets `msg["stop"]` when `hide_fn` holds;
`PlateMessenger` broadcasts the distribution of sample messages.  (A sample
message's `fn` is a distribution by construction.) -/
def process_message : Handler → Msg → Msg
  | .htrace _, m => m
  | .hreplay g, m =>
    match lookup_trace g m.name with
    | some rec => { m with value := rec.value }
    | none => m
  | .hblock hide_fn, m => if hide_fn m then { m with stop := true } else m
  | .hplate size dim, m =>
    if m.type = MsgType.sample then
      match m.fn with
      | .dist d => { m with fn := .dist (plate_broadcast size dim d) }
      | .paramClosure _ => m
    else m

/-- The `postprocess_message` hook: only `trace` overrides the no-op; it
asserts the site name is new and records a snapshot copy of the message
keyed by its name (appending to the insertion-ordered mapping). -/
def postprocess_message : Handler → Msg → Except PyErr Handler
  | .htrace tr, m =>
    if contains_name tr m.name then .error .assertError
    else .ok (.htrace (tr ++ [(m.name, m)]))
  | h, _ => .ok h

/-- The pre-phase loop of `apply_stack`, run over `reversed(PYRO_STACK)`:
apply each handler's `process_message`, breaking as soon as the message's
`stop` field is set.  Returns the processed message together with
`pointer + 1`, the number of handlers reached (the loop variable `pointer`
holds the index of the last handler processed). -/
def processChain : List Handler → Msg → Msg × Nat
  | [], m => (m, 0)
  | h :: rest, m =>
    let m1 := process_message h m
    if m1.stop then (m1, 1)
    else
      let r := processChain rest m1
      (r.1, r.2 + 1)

/-- The post-phase loop of `apply_stack`: apply `postprocess_message` of the
given handlers in order, stopping at the first assertion failure.  Trace
handlers come back with their mapping extended. -/
def postPhase : List Handler → Msg → Except PyErr (List Handler)
  | [], _ => .ok []
  | h :: rest, m =>
    match postprocess_message h m with
    | .error e => .error e
    | .ok h1 =>
      match postPhase rest m with
      | .error e => .error e
      | .ok rest1 => .ok (h1 :: rest1)

/-- The closure `fn(init_value, constraint)` defined inside `param`: if the
name is in the store, ignore the arguments and reuse the stored
(unconstrained value, constraint) pair; otherwise require an initial value
(fatal if absent), invert it through the constraint transform (`detach` is
a gradient-graph operation with no effect on the value) and store the pair.
Either way, return the forward transform of the unconstrained value.  The
`weakref` back-reference and `requires_grad_` are gradient-engine bookkeeping
with no effect on the values modelled here. -/
def param_fn (pname : String) (init : Option Int) (c : Constraint) (store : ParamStore) :
    Except PyErr (Int × ParamStore) :=
  match lookup_store store pname with
  | some uc => .ok (uc.2.fwd uc.1, store)
  | none =>
    match init with
    | none => .error .assertError
    | some iv =>
      let u := c.inv iv
      .ok (c.fwd u, store ++ [(pname, u, c)])

/-- Evaluation of `msg["fn"](*msg["args"])`: calling a distribution draws
from it (advancing the global draw counter), calling the param closure runs
the store lookup/initialisation logic. -/
def eval_descriptor (m : Msg) (store : ParamStore) (draws : Nat) :
    Except PyErr (Int × ParamStore × Nat) :=
  match m.fn, m.args with
  | .dist d, .noArgs => .ok (d.draw, store, draws + 1)
  | .paramClosure pname, .paramArgs init c =>
    match param_fn pname init c store with
    | .ok r => .ok (r.1, r.2, draws)
    | .error e => .error e
  | _, _ => .error .typeError

/-- The process-wide mutable state threaded through the embedding: the
handler stack `PYRO_STACK` (top of stack at the end of the list, as Python
appends), the parameter store, and the RNG draw counter. -/
structure World where
  stack : List Handler
  store : ParamStore
  draws : Nat

/-- The step `if msg["value"] is None: msg["value"] = msg["fn"](*msg["args"])`
of `apply_stack`. -/
def fill_value (m : Msg) (store : ParamStore) (draws : Nat) :
    Except PyErr (Msg × ParamStore × Nat) :=
  match m.value with
  | some _ => .ok (m, store, draws)
  | none =>
    match eval_descriptor m store draws with
    | .ok r => .ok ({ m with value := some r.1 }, r.2.1, r.2.2)
    | .error e => .error e

/-- The dispatch protocol `apply_stack(msg)`: pre-phase over the reversed
stack with stop short-circuiting, descriptor evaluation if the value is
still unset, then `postprocess_message` over `PYRO_STACK[-pointer-1:]` (the
handlers reached in the pre-phase, in entry order).  On an empty stack the
loop variable `pointer` is never bound and the slice raises `NameError`
(this point is unreachable from `sample` / `param`, which test the stack
first; the store mutation a param descriptor would have made before that
`NameError` is unobservable for the same reason). -/
def apply_stack (m : Msg) (w : World) : Except PyErr (Msg × World) :=
  let pre := processChain w.stack.reverse m
  match fill_value pre.1 w.store w.draws with
  | .error e => .error e
  | .ok filled =>
    if w.stack.isEmpty then .error .nameError
    else
      match postPhase (w.stack.drop (w.stack.length - pre.2)) filled.1 with
      | .error e => .error e
      | .ok seg =>
        .ok (filled.1,
             ⟨w.stack.take (w.stack.length - pre.2) ++ seg, filled.2.1, filled.2.2⟩)

/-- The `initial_msg` dictionary built by `sample`. -/
def sample_initial_msg (name : String) (d : Dist) (obs : Option Int) : Msg :=
  { type := MsgType.sample, name := name, fn := .dist d, args := .noArgs,
    value := obs, stop := false }

/-- The `initial_msg` dictionary built by `param`. -/
def param_initial_msg (name : String) (init : Option Int) (c : Constraint) : Msg :=
  { type := MsgType.param, name := name, fn := .paramClosure name,
    args := .paramArgs init c, value := none, stop := false }

/-- The primitive `sample(name, fn, obs=None)`: with no active handlers it
returns `fn()` directly (a fresh draw — note `obs` is not consulted on this
path); otherwise it builds the initial message and dispatches it, returning
the resolved `msg["value"]`. -/
def sample (name : String) (d : Dist) (obs : Option Int) (w : World) :
    Except PyErr (Option Int × World) :=
  if w.stack.isEmpty then
    .ok (some d.draw, ⟨w.stack, w.store, w.draws + 1⟩)
  else
    match apply_stack (sample_initial_msg name d obs) w with
    | .error e => .error e
    | .ok r => .ok (r.1.value, r.2)

/-- The primitive `param(name, init_value=None, constraint=real)`: with no
active handlers it runs the closure directly; otherwise it builds the
initial message and dispatches it, returning the resolved `msg["value"]`. -/
def param (name : String) (init : Option Int) (c : Constraint) (w : World) :
    Except PyErr (Option Int × World) :=
  if w.stack.isEmpty then
    match param_fn name init c w.store with
    | .ok r => .ok (some r.1, ⟨w.stack, r.2, w.draws⟩)
    | .error e => .error e
  else
    match apply_stack (param_initial_msg name init c) w with
    | .error e => .error e
    | .ok r => .ok (r.1.value, r.2)

/-- One primitive call appearing in the body of a model / guide function. -/
inductive Cmd where
  | csample (name : String) (d : Dist) (obs : Option Int)
  | cparam (name : String) (init : Option Int) (c : Constraint)

/-- Execute one primitive call. -/
def runCmd (c : Cmd) (w : World) : Except PyErr (Option Int × World) :=
  match c with
  | .csample name d obs => sample name d obs w
  | .cparam name init cn => param name init cn w

/-- Execute a model body: a straight-line sequence of primitive calls (the
returned values do not feed back into the control flow of the bodies the
claims are about). -/
def runModel : List Cmd → World → Except PyErr World
  | [], w => .ok w
  | c :: rest, w =>
    match runCmd c w with
    | .error e => .error e
    | .ok r => runModel rest r.2

/-- `trace(body).get_trace(*args)`: `trace.__enter__` pushes the handler and
gives it a fresh mapping, the body runs, `__exit__` pops it (the popped top
is the handler pushed here: dispatch preserves stack positions, so the
fallback branch models the `__exit__` assertion), and the recorded mapping
is returned. -/
def get_trace (body : List Cmd) (w : World) : Except PyErr (TraceMap × World) :=
  match runModel body ⟨w.stack ++ [.htrace []], w.store, w.draws⟩ with
  | .error e => .error e
  | .ok w1 =>
    match w1.stack.getLast? with
    | some (.htrace tr) => .ok (tr, ⟨w1.stack.dropLast, w1.store, w1.draws⟩)
    | _ => .error .assertError

/-- `replay(body, guide_trace)(*args)`: push the replay handler, run the
body, pop it (same `__exit__` discipline as above). -/
def replay_run (body : List Cmd) (gt : TraceMap) (w : World) : Except PyErr World :=
  match runModel body ⟨w.stack ++ [.hreplay gt], w.store, w.draws⟩ with
  | .error e => .error e
  | .ok w1 =>
    match w1.stack.getLast? with
    | some (.hreplay _) => .ok ⟨w1.stack.dropLast, w1.store, w1.draws⟩
    | _ => .error .assertError

/-- `trace(replay(body, guide_trace)).get_trace(*args)`. -/
def get_trace_replay (body : List Cmd) (gt : TraceMap) (w : World) :
    Except PyErr (TraceMap × World) :=
  match replay_run body gt ⟨w.stack ++ [.htrace []], w.store, w.draws⟩ with
  | .error e => .error e
  | .ok w1 =>
    match w1.stack.getLast? with
    | some (.htrace tr) => .ok (tr, ⟨w1.stack.dropLast, w1.store, w1.draws⟩)
    | _ => .error .assertError

/-- The term `site["fn"].log_prob(site["value"]).sum()` of the ELBO for one
recorded site (a sample site's `fn` is a distribution by construction; the
`sum()` reduction is the identity on the scalar values modelled here). -/
def site_log_prob (m : Msg) : Int :=
  match m.fn with
  | .dist d => d.logProb m.value
  | .paramClosure _ => 0

/-- The loss builder `elbo(model, guide, *args)`: trace the guide, trace the
model replayed against the guide trace, accumulate `log_prob` over the
model trace's sample sites, subtract it over the guide trace's sample
sites, and return the negation. -/
def elbo (model guide : List Cmd) (w : World) : Except PyErr (Int × World) :=
  match get_trace guide w with
  | .error e => .error e
  | .ok gtr =>
    match get_trace_replay model gtr.1 gtr.2 with
    | .error e => .error e
    | .ok mtr =>
      let e1 := mtr.1.foldl
        (fun acc site => if site.2.type = MsgType.sample then acc + site_log_prob site.2 else acc) 0
      let e2 := gtr.1.foldl
        (fun acc site => if site.2.type = MsgType.sample then acc - site_log_prob site.2 else acc) e1
      .ok (-e2, mtr.2)

/-- Sum of `log_prob` over every sample-type site of a trace, written
directly as the spec phrases it (filter the sample sites, sum their
log-probabilities). -/
def sample_log_sum (tr : TraceMap) : Int :=
  ((tr.filter (fun site => site.2.type = MsgType.sample)).map
    (fun site => site_log_prob site.2)).sum

/-- The predicate `lambda msg: msg["type"] == "sample"` used as the
`hide_fn` of `block` (the `is_sample` of the block-scoping property). -/
def hide_sample : Msg → Bool :=
  fun m => m.type == MsgType.sample

/-- The handler stack that is active at the primitive sites of a model
wrapped as `trace(block(..., hide_fn=is_sample))` with a further `trace`
entered inside the block: outer trace first, then the block, then the
inner trace. -/
def block_stack (t0 t1 : TraceMap) : List Handler :=
  [.htrace t0, .hblock hide_sample, .htrace t1]

/-- The property `traces_nodup l`: every `trace` handler in `l` holds a
mapping whose site names are pairwise distinct. -/
def traces_nodup (l : List Handler) : Prop :=
  ∀ tr, Handler.htrace tr ∈ l → (tr.map Prod.fst).Nodup

/-- `Messenger.__enter__`: append `self` to `PYRO_STACK`.  For the scoped
acquisition discipline the stack is modelled by the identity tokens of the
handler objects on it (Python compares with `is`). -/
def messenger_enter (stack : List Nat) (self : Nat) : List Nat :=
  stack ++ [self]

/-- `Messenger.__exit__`: `assert PYRO_STACK[-1] is self` (an `IndexError`
on an empty stack, an `AssertionError` if the top is a different object),
then pop. -/
def messenger_exit (stack : List Nat) (self : Nat) : Except PyErr (List Nat) :=
  match stack.getLast? with
  | none => .error .indexError
  | some top => if top = self then .ok stack.dropLast else .error .assertError

/-- `Messenger.__call__`, i.e. `with self: ...`: enter, run the body (whose
outcome may be an exception; the global stack it leaves behind survives the
unwind), and run `__exit__` on every exit path.  A failure raised by
`__exit__` itself propagates in place of the body's outcome. -/
def messenger_with (self : Nat) (body : List Nat → Except PyErr Unit × List Nat)
    (stack : List Nat) : Except PyErr Unit × List Nat :=
  let r := body (messenger_enter stack self)
  match messenger_exit r.2 self with
  | .ok st2 => (r.1, st2)
  | .error e => (.error e, r.2)

/-- Modelled from the spec (section 4.1), for the refinement claim about the
empty-stack bypass: the dispatch protocol specialised to a stack of zero
handlers.  The pre-phase runs no hooks; if the message's value is still
unset the descriptor is invoked to produce it; the post-phase runs no
hooks; the resolved value is returned. -/
def dispatch_zero_spec (m : Msg) (store : ParamStore) (draws : Nat) :
    Except PyErr (Option Int × ParamStore × Nat) :=
  match m.value with
  | some v => .ok (some v, store, draws)
  | none =>
    match eval_descriptor m store draws with
    | .ok r => .ok (some r.1, r.2.1, r.2.2)
    | .error e => .error e

/-- The two shapes of object relevant to iterating a `PlateMessenger`: a
`range` object (iterable, but with no `__next__` method, hence not an
iterator) and a `range_iterator` (what `iter(range(n))` returns). -/
inductive PyIterable where
  | rangeObj (n : Nat)
  | rangeIterator (elems : List Nat)

/-- Whether the object has a `__next__` method (CPython `PyIter_Check`). -/
def PyIterable.hasNext : PyIterable → Bool
  | .rangeObj _ => false
  | .rangeIterator _ => true

/-- The sequence of values the object stands for: a `range(n)` holds
`0, 1, ..., n-1`. -/
def PyIterable.contents : PyIterable → List Nat
  | .rangeObj n => List.range n
  | .rangeIterator elems => elems

/-- `PlateMessenger.__iter__`: `return range(self.size)` — a `range`
object, not an iterator over it. -/
def plateMessenger_iter (size : Nat) : PyIterable :=
  .rangeObj size

/-- The CPython `iter()` protocol (`PyObject_GetIter`): call `__iter__` and
raise `TypeError: iter() returned non-iterator` unless the result has a
`__next__` method. -/
def py_get_iter (iter_result : PyIterable) : Except PyErr PyIterable :=
  if iter_result.hasNext then .ok iter_result else .error .typeError

/-- `for i in plate_handler: collect i` — the for-statement applies the
`iter()` protocol to the handler's `__iter__` result and, if that
succeeds, exhausts the iterator. -/
def py_for_plate (size : Nat) : Except PyErr (List Nat) :=
  match py_get_iter (plateMessenger_iter size) with
  | .error e => .error e
  | .ok it => .ok it.contents

lemma lookup_trace_append_of_none {t1 : TraceMap} (t2 : TraceMap) {n : String}
    (h : lookup_trace t1 n = none) :
    lookup_trace (t1 ++ t2) n = lookup_trace t2 n := by
  induction t1 with
  | nil => simp
  | cons e rest ih =>
    match e with
    | (k, v) =>
      simp only [lookup_trace] at h ⊢
      by_cases hk : k = n
      · simp [hk] at h
      · simp only [hk, if_false] at h ⊢
        exact ih h

lemma lookup_trace_append_of_some {t1 : TraceMap} (t2 : TraceMap) {n : String} {m : Msg}
    (h : lookup_trace t1 n = some m) :
    lookup_trace (t1 ++ t2) n = some m := by
  induction t1 with
  | nil => simp [lookup_trace] at h
  | cons e rest ih =>
    match e with
    | (k, v) =>
      simp only [lookup_trace] at h ⊢
      by_cases hk : k = n
      · simpa [hk] using h
      · simp only [hk, if_false] at h ⊢
        exact ih h

lemma lookup_trace_self (t : TraceMap) (n : String) (m : Msg) :
    lookup_trace (t ++ [(n, m)]) n = some (match lookup_trace t n with
      | some m0 => m0
      | none => m) := by
  cases h : lookup_trace t n with
  | some m0 => simp [lookup_trace_append_of_some _ h]
  | none => simp [lookup_trace_append_of_none _ h, lookup_trace]

lemma contains_name_append_mono {t1 : TraceMap} (t2 : TraceMap) {n : String}
    (h : contains_name t1 n = true) :
    contains_name (t1 ++ t2) n = true := by
  unfold contains_name at h ⊢
  cases hl : lookup_trace t1 n with
  | none => rw [hl] at h; simp at h
  | some m => rw [lookup_trace_append_of_some _ hl]; rfl

lemma contains_name_concat_self (t : TraceMap) (n : String) (m : Msg) :
    contains_name (t ++ [(n, m)]) n = true := by
  unfold contains_name
  rw [lookup_trace_self]
  rfl

lemma contains_name_false_iff (t : TraceMap) (n : String) :
    contains_name t n = false ↔ n ∉ t.map Prod.fst := by
  induction t with
  | nil => simp [contains_name, lookup_trace]
  | cons e rest ih =>
    obtain ⟨k, v⟩ := e
    simp only [contains_name, lookup_trace] at ih ⊢
    by_cases hk : k = n
    · subst hk
      simp
    · simp only [hk, if_false, List.map_cons, List.mem_cons]
      constructor
      · intro h hc
        rcases hc with hc | hc
        · exact hk hc.symm
        · exact (ih.mp h) hc
      · intro h
        exact ih.mpr (fun hc => h (Or.inr hc))

lemma processChain_count_of_not_stop {l : List Handler} {m : Msg}
    (h : (processChain l m).1.stop = false) :
    (processChain l m).2 = l.length := by
  induction l generalizing m with
  | nil => rfl
  | cons hd tl ih =>
    simp only [processChain] at h ⊢
    by_cases hs : (process_message hd m).stop
    · exfalso
      rw [if_pos hs] at h
      rw [h] at hs
      exact Bool.false_ne_true hs
    · simp only [hs, if_false, Bool.false_eq_true] at h ⊢
      simp only [List.length_cons]
      exact congrArg (· + 1) (ih h)

lemma processChain_append_of_not_stop {l1 : List Handler} {m : Msg} (l2 : List Handler)
    (h : (processChain l1 m).1.stop = false) :
    processChain (l1 ++ l2) m =
      ((processChain l2 (processChain l1 m).1).1,
       l1.length + (processChain l2 (processChain l1 m).1).2) := by
  induction l1 generalizing m with
  | nil =>
    simp only [List.nil_append, processChain, List.length_nil, Nat.zero_add]
  | cons hd tl ih =>
    by_cases hs : (process_message hd m).stop
    · exfalso
      simp only [processChain, if_pos hs] at h
      rw [h] at hs
      exact Bool.false_ne_true hs
    · have h2 : (processChain tl (process_message hd m)).1.stop = false := by
        simpa only [processChain, if_neg hs] using h
      show processChain (hd :: (tl ++ l2)) m = _
      simp only [processChain, if_neg hs, List.length_cons]
      rw [ih h2]
      refine Prod.ext rfl ?_
      simp only
      omega

lemma processChain_append_of_stop {l1 : List Handler} {m : Msg} (l2 : List Handler)
    (hm : m.stop = false) (h : (processChain l1 m).1.stop = true) :
    processChain (l1 ++ l2) m = processChain l1 m := by
  induction l1 generalizing m with
  | nil => simp [processChain, hm] at h
  | cons hd tl ih =>
    by_cases hs : (process_message hd m).stop
    · show processChain (hd :: (tl ++ l2)) m = _
      simp [processChain, if_pos hs]
    · have hms : (process_message hd m).stop = false := by
        simpa using hs
      have h2 : (processChain tl (process_message hd m)).1.stop = true := by
        simpa only [processChain, if_neg hs] using h
      show processChain (hd :: (tl ++ l2)) m = _
      simp only [processChain, if_neg hs]
      rw [ih hms h2]

lemma processChain_singleton (h : Handler) (m : Msg) :
    processChain [h] m = (process_message h m, 1) := by
  by_cases hs : (process_message h m).stop <;> simp [processChain, hs]

lemma processChain_value_preserved {l : List Handler} {m : Msg}
    (h : ∀ hd ∈ l, ∀ m2, (process_message hd m2).value = m2.value) :
    (processChain l m).1.value = m.value := by
  induction l generalizing m with
  | nil => rfl
  | cons hd tl ih =>
    have hhd : ∀ m2, (process_message hd m2).value = m2.value :=
      h hd (List.mem_cons_self hd tl)
    have htl : ∀ x ∈ tl, ∀ m2, (process_message x m2).value = m2.value :=
      fun x hx => h x (List.mem_cons_of_mem hd hx)
    by_cases hs : (process_message hd m).stop
    · simp only [processChain, if_pos hs]
      exact hhd m
    · simp only [processChain, if_neg hs]
      rw [ih htl, hhd m]

lemma apply_stack_of_pre_some {m : Msg} {w : World} {v : Int}
    (hpre : (processChain w.stack.reverse m).1.value = some v)
    {r : Msg × World} (hok : apply_stack m w = .ok r) :
    r.1.value = some v ∧ r.2.store = w.store ∧ r.2.draws = w.draws := by
  simp only [apply_stack, fill_value, hpre] at hok
  by_cases he : w.stack.isEmpty
  · simp [he] at hok
  · simp only [he, if_false, Bool.false_eq_true] at hok
    cases hp : postPhase (w.stack.drop (w.stack.length - (processChain w.stack.reverse m).2))
        (processChain w.stack.reverse m).1 with
    | error e => rw [hp] at hok; cases hok
    | ok seg =>
      rw [hp] at hok
      cases hok
      exact ⟨hpre, rfl, rfl⟩

lemma apply_stack_of_pre_none {m : Msg} {w : World}
    (hpre : (processChain w.stack.reverse m).1.value = none)
    {r : Msg × World} (hok : apply_stack m w = .ok r) :
    ∃ u, eval_descriptor (processChain w.stack.reverse m).1 w.store w.draws =
        .ok (u, r.2.store, r.2.draws) ∧ r.1.value = some u := by
  simp only [apply_stack, fill_value, hpre] at hok
  cases hev : eval_descriptor (processChain w.stack.reverse m).1 w.store w.draws with
  | error e => rw [hev] at hok; cases hok
  | ok t =>
    rw [hev] at hok
    simp only at hok
    by_cases he : w.stack.isEmpty
    · simp [he] at hok
    · simp only [he, if_false, Bool.false_eq_true] at hok
      cases hp : postPhase (w.stack.drop (w.stack.length - (processChain w.stack.reverse m).2))
          { (processChain w.stack.reverse m).1 with value := some t.1 } with
      | error e => rw [hp] at hok; cases hok
      | ok seg =>
        rw [hp] at hok
        cases hok
        exact ⟨t.1, rfl, rfl⟩

lemma apply_stack_stop_outer_free {outer inner : List Handler} {h : Handler} {m : Msg}
    (hm : m.stop = false)
    (hin : (processChain inner.reverse m).1.stop = false)
    (hstop : (process_message h (processChain inner.reverse m).1).stop = true)
    (store : ParamStore) (draws : Nat) :
    apply_stack m ⟨outer ++ h :: inner, store, draws⟩ =
      (apply_stack m ⟨h :: inner, store, draws⟩).map
        (fun r => (r.1, ⟨outer ++ r.2.stack, r.2.store, r.2.draws⟩)) := by
  have hshort : processChain (h :: inner).reverse m =
      (process_message h (processChain inner.reverse m).1, inner.length + 1) := by
    rw [List.reverse_cons, processChain_append_of_not_stop [h] hin,
      processChain_singleton, List.length_reverse]
  have hfull : processChain (outer ++ h :: inner).reverse m =
      (process_message h (processChain inner.reverse m).1, inner.length + 1) := by
    rw [List.reverse_append]
    rw [processChain_append_of_stop outer.reverse hm (by rw [hshort]; exact hstop)]
    exact hshort
  simp only [apply_stack, hshort, hfull]
  cases hf : fill_value (process_message h (processChain inner.reverse m).1) store draws with
  | error e => rfl
  | ok filled =>
    simp only
    have hne1 : ((outer ++ h :: inner).isEmpty) = false := by
      simp [List.isEmpty_iff]
    have hne2 : ((h :: inner).isEmpty) = false := by simp
    simp only [hne1, hne2, Bool.false_eq_true, if_false]
    have hlen1 : (outer ++ h :: inner).length - (inner.length + 1) = outer.length := by
      simp [List.length_append]
    have hlen2 : (h :: inner).length - (inner.length + 1) = 0 := by simp
    rw [hlen1, hlen2]
    have hdrop1 : (outer ++ h :: inner).drop outer.length = h :: inner :=
      List.drop_left outer (h :: inner)
    have htake1 : (outer ++ h :: inner).take outer.length = outer :=
      List.take_left outer (h :: inner)
    rw [hdrop1, htake1, List.drop_zero, List.take_zero]
    cases hp : postPhase (h :: inner) filled.1 with
    | error e => simp [hp, Except.map]
    | ok seg => simp [hp, Except.map]

lemma sample_block_stack_spec {t0 t1 : TraceMap} {store : ParamStore} {k : Nat}
    {name : String} {d : Dist} {obs : Option Int} {r : Option Int × World}
    (hok : sample name d obs ⟨block_stack t0 t1, store, k⟩ = .ok r) :
    ∃ m k2, m.type = MsgType.sample ∧ m.name = name ∧
      r.2 = ⟨block_stack t0 (t1 ++ [(name, m)]), store, k2⟩ := by
  by_cases hc : contains_name t1 name
  · exfalso
    cases obs with
    | some v =>
      simp [sample, apply_stack, block_stack, processChain, process_message, hide_sample,
        sample_initial_msg, fill_value, eval_descriptor, postPhase, postprocess_message, hc] at hok
    | none =>
      simp [sample, apply_stack, block_stack, processChain, process_message, hide_sample,
        sample_initial_msg, fill_value, eval_descriptor, postPhase, postprocess_message, hc] at hok
  · cases obs with
    | some v =>
      simp [sample, apply_stack, block_stack, processChain, process_message, hide_sample,
        sample_initial_msg, fill_value, eval_descriptor, postPhase, postprocess_message, hc] at hok
      cases hok
      exact ⟨{ sample_initial_msg name d (some v) with stop := true }, k, rfl, rfl, rfl⟩
    | none =>
      simp [sample, apply_stack, block_stack, processChain, process_message, hide_sample,
        sample_initial_msg, fill_value, eval_descriptor, postPhase, postprocess_message, hc] at hok
      cases hok
      exact ⟨{ sample_initial_msg name d (some d.draw) with stop := true }, k + 1, rfl, rfl, rfl⟩

lemma param_block_stack_spec {t0 t1 : TraceMap} {store : ParamStore} {k : Nat}
    {name : String} {init : Option Int} {c : Constraint} {r : Option Int × World}
    (hok : param name init c ⟨block_stack t0 t1, store, k⟩ = .ok r) :
    ∃ m store2, m.type = MsgType.param ∧ m.name = name ∧
      r.2 = ⟨block_stack (t0 ++ [(name, m)]) (t1 ++ [(name, m)]), store2, k⟩ := by
  cases hpf : param_fn name init c store with
  | error e =>
    exfalso
    simp [param, apply_stack, block_stack, processChain, process_message, hide_sample,
      param_initial_msg, fill_value, eval_descriptor, postPhase, postprocess_message, hpf] at hok
  | ok pr =>
    by_cases hc0 : contains_name t0 name
    · exfalso
      simp [param, apply_stack, block_stack, processChain, process_message, hide_sample,
        param_initial_msg, fill_value, eval_descriptor, postPhase, postprocess_message,
        hpf, hc0] at hok
    · by_cases hc1 : contains_name t1 name
      · exfalso
        simp [param, apply_stack, block_stack, processChain, process_message, hide_sample,
          param_initial_msg, fill_value, eval_descriptor, postPhase, postprocess_message,
          hpf, hc0, hc1] at hok
      · simp [param, apply_stack, block_stack, processChain, process_message, hide_sample,
          param_initial_msg, fill_value, eval_descriptor, postPhase, postprocess_message,
          hpf, hc0, hc1] at hok
        cases hok
        exact ⟨{ param_initial_msg name init c with value := some pr.1 }, pr.2, rfl, rfl, rfl⟩

lemma runModel_block_stack {cmds : List Cmd} {t0 t1 : TraceMap} {store : ParamStore} {k : Nat}
    {w2 : World}
    (hok : runModel cmds ⟨block_stack t0 t1, store, k⟩ = .ok w2) :
    ∃ t0n t1n store2 k2, w2 = ⟨block_stack t0n t1n, store2, k2⟩ ∧
      (∀ e ∈ t0n, e.2.type = MsgType.sample → e ∈ t0) ∧
      (∀ n, contains_name t1 n = true → contains_name t1n n = true) ∧
      (∀ name d obs, Cmd.csample name d obs ∈ cmds → contains_name t1n name = true) := by
  induction cmds generalizing t0 t1 store k with
  | nil =>
    cases hok
    exact ⟨t0, t1, store, k, rfl, fun e he _ => he, fun n hn => hn, by simp⟩
  | cons c rest ih =>
    cases c with
    | csample name d obs =>
      cases hrc : sample name d obs ⟨block_stack t0 t1, store, k⟩ with
      | error e => simp [runModel, runCmd, hrc] at hok
      | ok r =>
        obtain ⟨m, k2, hmt, hmn, hr2⟩ := sample_block_stack_spec hrc
        have hok2 : runModel rest ⟨block_stack t0 (t1 ++ [(name, m)]), store, k2⟩ = .ok w2 := by
          rw [← hr2]
          simpa [runModel, runCmd, hrc] using hok
        obtain ⟨t0n, t1n, store2, k3, hw, h0, hmono, hsamp⟩ := ih hok2
        refine ⟨t0n, t1n, store2, k3, hw, h0, ?_, ?_⟩
        · intro n hn
          exact hmono n (contains_name_append_mono _ hn)
        · intro nm dd oo hmem
          rcases List.mem_cons.mp hmem with heq | hmem2
          · cases heq
            exact hmono name (contains_name_concat_self t1 name m)
          · exact hsamp nm dd oo hmem2
    | cparam name init cn =>
      cases hrc : param name init cn ⟨block_stack t0 t1, store, k⟩ with
      | error e => simp [runModel, runCmd, hrc] at hok
      | ok r =>
        obtain ⟨m, store2, hmt, hmn, hr2⟩ := param_block_stack_spec hrc
        have hok2 : runModel rest
            ⟨block_stack (t0 ++ [(name, m)]) (t1 ++ [(name, m)]), store2, k⟩ = .ok w2 := by
          rw [← hr2]
          simpa [runModel, runCmd, hrc] using hok
        obtain ⟨t0n, t1n, store3, k3, hw, h0, hmono, hsamp⟩ := ih hok2
        refine ⟨t0n, t1n, store3, k3, hw, ?_, ?_, ?_⟩
        · intro e he hes
          rcases List.mem_append.mp (h0 e he hes) with h | h
          · exact h
          · exfalso
            have : e.2 = m := by
              simpa using congrArg Prod.snd (List.mem_singleton.mp h)
            rw [this, hmt] at hes
            cases hes
        · intro n hn
          exact hmono n (contains_name_append_mono _ hn)
        · intro nm dd oo hmem
          rcases List.mem_cons.mp hmem with heq | hmem2
          · cases heq
          · exact hsamp nm dd oo hmem2

/-- C1: for every dispatch of a message (fresh messages have `stop` unset)
through a non-empty handler stack, pre-hooks run innermost-first and the
first hook to set `stop` halts the pre-phase immediately; post-hooks then
run in entry order but only over the handlers reached in the pre-phase, so
the handlers outside the stopping handler receive neither hook: the
dispatch result does not depend on them at all and they come back from the
dispatch untouched.  Consequently, running a model under
`trace(block(..., hide_fn=is_sample))` with a further trace entered inside
the block yields an outer trace with no sample-type entries, while the
inner trace still records every sample site. -/
theorem c1_stop_short_circuit_and_block_scoping :
    (∀ (outer inner : List Handler) (h : Handler) (m : Msg) (store : ParamStore) (draws : Nat),
      m.stop = false →
      (processChain inner.reverse m).1.stop = false →
      (process_message h (processChain inner.reverse m).1).stop = true →
      apply_stack m ⟨outer ++ h :: inner, store, draws⟩ =
        (apply_stack m ⟨h :: inner, store, draws⟩).map
          (fun r => (r.1, ⟨outer ++ r.2.stack, r.2.store, r.2.draws⟩))) ∧
    (∀ (cmds : List Cmd) (t1 : TraceMap) (store : ParamStore) (k : Nat) (w2 : World),
      runModel cmds ⟨block_stack [] t1, store, k⟩ = .ok w2 →
      ∃ t0n t1n store2 k2, w2 = ⟨block_stack t0n t1n, store2, k2⟩ ∧
        (∀ e ∈ t0n, e.2.type ≠ MsgType.sample) ∧
        (∀ name d obs, Cmd.csample name d obs ∈ cmds → contains_name t1n name = true)) := by
  constructor
  · intro outer inner h m store draws hm hin hstop
    exact apply_stack_stop_outer_free hm hin hstop store draws
  · intro cmds t1 store k w2 hok
    obtain ⟨t0n, t1n, store2, k2, hw, h0, _, hsamp⟩ := runModel_block_stack hok
    refine ⟨t0n, t1n, store2, k2, hw, ?_, hsamp⟩
    intro e he hes
    exact absurd (h0 e he hes) (List.not_mem_nil e)

/-- Witness for C1 at concrete inputs: a block that always stops, under an
outer trace, dispatching an observed sample message; and a one-sample model
run under the trace-block-trace stack. -/
theorem c1_stop_short_circuit_and_block_scoping_witness :
    (apply_stack (sample_initial_msg ("x") ⟨5, fun _ => 0, []⟩ (some 1))
        ⟨[.htrace []] ++ (Handler.hblock (fun _ => true)) :: [], [], 0⟩ =
      (apply_stack (sample_initial_msg ("x") ⟨5, fun _ => 0, []⟩ (some 1))
          ⟨(Handler.hblock (fun _ => true)) :: [], [], 0⟩).map
        (fun r => (r.1, ⟨[Handler.htrace []] ++ r.2.stack, r.2.store, r.2.draws⟩))) ∧
    (∃ t0n t1n store2 k2,
      (⟨block_stack []
          [(("x"),
            { sample_initial_msg ("x") ⟨5, fun _ => 0, []⟩ (some 2) with stop := true })],
        [], 0⟩ : World) = ⟨block_stack t0n t1n, store2, k2⟩ ∧
      (∀ e ∈ t0n, e.2.type ≠ MsgType.sample) ∧
      (∀ name d obs,
        Cmd.csample name d obs ∈ [Cmd.csample ("x") ⟨5, fun _ => 0, []⟩ (some 2)] →
        contains_name t1n name = true)) := by
  constructor
  · exact c1_stop_short_circuit_and_block_scoping.1 [.htrace []] []
      (Handler.hblock (fun _ => true)) (sample_initial_msg ("x") ⟨5, fun _ => 0, []⟩ (some 1))
      [] 0 rfl rfl rfl
  · exact c1_stop_short_circuit_and_block_scoping.2
      [Cmd.csample ("x") ⟨5, fun _ => 0, []⟩ (some 2)] [] [] 0 _ rfl

/-- C2: for every message dispatched through a non-empty stack the
descriptor is invoked exactly when the message's value is still unset after
the pre-phase — if the pre-phase left a value, the result carries that
value and neither the store nor the RNG draw counter moves; if not, the
resolved value is exactly the descriptor's output together with its store
and draw effects.  In particular `sample(name, d, obs)` under handlers that
do not modify the value returns `obs` without ever drawing from `d`. -/
theorem c2_descriptor_invocation :
    (∀ (m : Msg) (w : World) (r : Msg × World) (v : Int),
      w.stack ≠ [] →
      (processChain w.stack.reverse m).1.value = some v →
      apply_stack m w = .ok r →
      r.1.value = some v ∧ r.2.store = w.store ∧ r.2.draws = w.draws) ∧
    (∀ (m : Msg) (w : World) (r : Msg × World),
      w.stack ≠ [] →
      (processChain w.stack.reverse m).1.value = none →
      apply_stack m w = .ok r →
      ∃ u, eval_descriptor (processChain w.stack.reverse m).1 w.store w.draws =
          .ok (u, r.2.store, r.2.draws) ∧ r.1.value = some u) ∧
    (∀ (name : String) (d : Dist) (v : Int) (w : World) (r : Option Int × World),
      w.stack ≠ [] →
      (∀ h ∈ w.stack, ∀ m2, (process_message h m2).value = m2.value) →
      sample name d (some v) w = .ok r →
      r.1 = some v ∧ r.2.store = w.store ∧ r.2.draws = w.draws) := by
  refine ⟨?_, ?_, ?_⟩
  · intro m w r v _ hpre hok
    exact apply_stack_of_pre_some hpre hok
  · intro m w r _ hpre hok
    exact apply_stack_of_pre_none hpre hok
  · intro name d v w r hne hpres hok
    have hpre : (processChain w.stack.reverse (sample_initial_msg name d (some v))).1.value
        = some v := by
      rw [processChain_value_preserved (fun hd hmem => hpres hd (List.mem_reverse.mp hmem))]
      rfl
    have he : w.stack.isEmpty = false := by
      simpa [List.isEmpty_iff] using hne
    simp only [sample, he, Bool.false_eq_true, if_false] at hok
    cases has : apply_stack (sample_initial_msg name d (some v)) w with
    | error e => rw [has] at hok; cases hok
    | ok r2 =>
      rw [has] at hok
      cases hok
      obtain ⟨h1, h2, h3⟩ := apply_stack_of_pre_some hpre has
      exact ⟨h1, h2, h3⟩

/-- Witness for C2: a single trace handler (its pre-hook is a no-op), an
observed sample message for the pre-set case, an unobserved one for the
unset case, and the `sample`-returns-`obs` case. -/
theorem c2_descriptor_invocation_witness :
    ((sample_initial_msg ("x") ⟨5, fun _ => 0, []⟩ (some 4)).value = some 4 ∧
      ([] : ParamStore) = [] ∧ (0 : Nat) = 0) ∧
    (∃ u, eval_descriptor (sample_initial_msg ("y") ⟨5, fun _ => 0, []⟩ none) [] 0 =
        .ok (u, [], 1) ∧
      ({ sample_initial_msg ("y") ⟨5, fun _ => 0, []⟩ none with value := some 5 }).value
        = some u) ∧
    ((some 4 : Option Int) = some 4 ∧ ([] : ParamStore) = [] ∧ (0 : Nat) = 0) := by
  refine ⟨?_, ?_, ?_⟩
  · exact c2_descriptor_invocation.1 (sample_initial_msg ("x") ⟨5, fun _ => 0, []⟩ (some 4))
      ⟨[.htrace []], [], 0⟩ _ 4 (by simp) rfl rfl
  · exact c2_descriptor_invocation.2.1 (sample_initial_msg ("y") ⟨5, fun _ => 0, []⟩ none)
      ⟨[.htrace []], [], 0⟩ _ (by simp) rfl rfl
  · exact c2_descriptor_invocation.2.2 ("x") ⟨5, fun _ => 0, []⟩ 4
      ⟨[.htrace []], [], 0⟩ _ (by simp)
      (by
        intro h hm m2
        simp only [List.mem_singleton] at hm
        subst hm
        rfl)
      rfl

/-- C4: replay fidelity — if the reference trace holds a site named `x`
with recorded value `v`, a model's sample site `x` run under `replay`
resolves to exactly `v`, for every distribution the model might use there
(and without consuming a draw or touching the store). -/
theorem c4_replay_fidelity (G : TraceMap) (x : String) (rec : Msg) (v : Int)
    (hx : lookup_trace G x = some rec) (hv : rec.value = some v) :
    ∀ (d : Dist) (store : ParamStore) (k : Nat),
      sample x d none ⟨[.hreplay G], store, k⟩ = .ok (some v, ⟨[.hreplay G], store, k⟩) := by
  intro d store k
  simp [sample, apply_stack, processChain, process_message, fill_value, postPhase,
    postprocess_message, sample_initial_msg, hx, hv]

/-- Witness for C4: a one-entry reference trace forcing site `x` to 9. -/
theorem c4_replay_fidelity_witness :
    sample ("x") ⟨7, fun _ => 0, []⟩ none
        ⟨[.hreplay [(("x"), sample_initial_msg ("x") ⟨9, fun _ => 0, []⟩ (some 9))]], [], 0⟩ =
      .ok (some 9,
        ⟨[.hreplay [(("x"), sample_initial_msg ("x") ⟨9, fun _ => 0, []⟩ (some 9))]], [], 0⟩) :=
  c4_replay_fidelity [(("x"), sample_initial_msg ("x") ⟨9, fun _ => 0, []⟩ (some 9))]
    ("x") (sample_initial_msg ("x") ⟨9, fun _ => 0, []⟩ (some 9)) 9 rfl rfl
    ⟨7, fun _ => 0, []⟩ [] 0

/-- C10: replay's pre-hook overwrites the value of every message whose name
is in the reference trace, for param messages just as for sample messages,
and even when the value was pre-filled as an observation: under replay an
observed sample site resolves to the recorded value, not its observation,
and a replayed param site bypasses the store logic entirely. -/
theorem c10_replay_overwrites_all_kinds (G : TraceMap) (name : String) (rec : Msg) (v : Int)
    (hx : lookup_trace G name = some rec) (hv : rec.value = some v) :
    (∀ (d : Dist) (obs : Int) (store : ParamStore) (k : Nat),
      sample name d (some obs) ⟨[.hreplay G], store, k⟩ =
        .ok (some v, ⟨[.hreplay G], store, k⟩)) ∧
    (∀ (init : Option Int) (c : Constraint) (store : ParamStore) (k : Nat),
      param name init c ⟨[.hreplay G], store, k⟩ =
        .ok (some v, ⟨[.hreplay G], store, k⟩)) := by
  constructor
  · intro d obs store k
    simp [sample, apply_stack, processChain, process_message, fill_value, postPhase,
      postprocess_message, sample_initial_msg, hx, hv]
  · intro init c store k
    simp [param, apply_stack, processChain, process_message, fill_value, postPhase,
      postprocess_message, param_initial_msg, hx, hv]

/-- Witness for C10: a recorded value 9 overrides an observation of 3 at a
sample site and resolves a param site without consulting the store. -/
theorem c10_replay_overwrites_all_kinds_witness :
    (sample ("x") ⟨7, fun _ => 0, []⟩ (some 3)
        ⟨[.hreplay [(("x"), sample_initial_msg ("x") ⟨9, fun _ => 0, []⟩ (some 9))]], [], 0⟩ =
      .ok (some 9,
        ⟨[.hreplay [(("x"), sample_initial_msg ("x") ⟨9, fun _ => 0, []⟩ (some 9))]], [], 0⟩)) ∧
    (param ("x") (some 3) ⟨fun t => t, fun t => t⟩
        ⟨[.hreplay [(("x"), sample_initial_msg ("x") ⟨9, fun _ => 0, []⟩ (some 9))]], [], 0⟩ =
      .ok (some 9,
        ⟨[.hreplay [(("x"), sample_initial_msg ("x") ⟨9, fun _ => 0, []⟩ (some 9))]], [], 0⟩)) :=
  ⟨(c10_replay_overwrites_all_kinds
      [(("x"), sample_initial_msg ("x") ⟨9, fun _ => 0, []⟩ (some 9))] ("x")
      (sample_initial_msg ("x") ⟨9, fun _ => 0, []⟩ (some 9)) 9 rfl rfl).1
        ⟨7, fun _ => 0, []⟩ 3 [] 0,
   (c10_replay_overwrites_all_kinds
      [(("x"), sample_initial_msg ("x") ⟨9, fun _ => 0, []⟩ (some 9))] ("x")
      (sample_initial_msg ("x") ⟨9, fun _ => 0, []⟩ (some 9)) 9 rfl rfl).2
        (some 3) ⟨fun t => t, fun t => t⟩ [] 0⟩

lemma lookup_store_append_of_none {s1 : ParamStore} (s2 : ParamStore) {n : String}
    (h : lookup_store s1 n = none) :
    lookup_store (s1 ++ s2) n = lookup_store s2 n := by
  induction s1 with
  | nil => simp
  | cons e rest ih =>
    obtain ⟨kk, vv⟩ := e
    simp only [lookup_store] at h ⊢
    by_cases hk : kk = n
    · simp [hk] at h
    · simp only [hk, if_false] at h ⊢
      exact ih h

/-- C5: parameter idempotence — once a name is in the store, a later
`param` call ignores the passed-in initial value and constraint, reuses the
stored (unconstrained value, constraint) pair, and returns the same
constrained value (the forward transform of the stored unconstrained
representation) as the first call did. -/
theorem c5_param_idempotent (p : String) (a b : Int) (c c2 : Constraint)
    (store : ParamStore) (k : Nat)
    (hfresh : lookup_store store p = none) (_hab : a ≠ b) :
    (param p (some a) c ⟨[], store, k⟩ =
       .ok (some (c.fwd (c.inv a)), ⟨[], store ++ [(p, c.inv a, c)], k⟩)) ∧
    (param p (some b) c2 ⟨[], store ++ [(p, c.inv a, c)], k⟩ =
       .ok (some (c.fwd (c.inv a)), ⟨[], store ++ [(p, c.inv a, c)], k⟩)) := by
  have hagain : lookup_store (store ++ [(p, c.inv a, c)]) p = some (c.inv a, c) := by
    rw [lookup_store_append_of_none _ hfresh]
    simp [lookup_store]
  constructor
  · simp [param, param_fn, hfresh]
  · simp [param, param_fn, hagain]

/-- Witness for C5: a fresh store, inits 1 and 2 and a shift constraint;
both calls return the constrained value 1. -/
theorem c5_param_idempotent_witness :
    (param ("p") (some 1) ⟨fun t => t + 1, fun t => t - 1⟩ ⟨[], [], 0⟩ =
       .ok (some ((fun (t : Int) => t + 1) ((fun (t : Int) => t - 1) 1)),
         ⟨[], [] ++ [(("p"), (fun (t : Int) => t - 1) 1, ⟨fun t => t + 1, fun t => t - 1⟩)], 0⟩)) ∧
    (param ("p") (some 2) ⟨fun t => t + 1, fun t => t - 1⟩
        ⟨[], [] ++ [(("p"), (fun (t : Int) => t - 1) 1, ⟨fun t => t + 1, fun t => t - 1⟩)], 0⟩ =
       .ok (some ((fun (t : Int) => t + 1) ((fun (t : Int) => t - 1) 1)),
         ⟨[], [] ++ [(("p"), (fun (t : Int) => t - 1) 1, ⟨fun t => t + 1, fun t => t - 1⟩)], 0⟩)) :=
  c5_param_idempotent ("p") 1 2 ⟨fun t => t + 1, fun t => t - 1⟩
    ⟨fun t => t + 1, fun t => t - 1⟩ [] 0 rfl (by decide)

/-- C6: scoped stack discipline of `Messenger.__enter__` / `__exit__` —
exiting right after entering (with the body leaving the stack as it found
it) restores exactly the original stack, so the depth after exit equals the
depth before entry; exit is fatal whenever the top of the stack at exit
time is not the handler being exited; and the `with`-statement runs the
push on entry and the pop on exit on every exit path, including when the
body's outcome is an exception. -/
theorem c6_stack_balance :
    (∀ (st : List Nat) (self : Nat),
      messenger_exit (messenger_enter st self) self = .ok st) ∧
    (∀ (st : List Nat) (self : Nat),
      st.getLast? ≠ some self → ∃ e, messenger_exit st self = .error e) ∧
    (∀ (self : Nat) (body : List Nat → Except PyErr Unit × List Nat) (st : List Nat),
      (body (messenger_enter st self)).2.getLast? = some self →
      messenger_with self body st =
        ((body (messenger_enter st self)).1, (body (messenger_enter st self)).2.dropLast)) := by
  refine ⟨?_, ?_, ?_⟩
  · intro st self
    simp [messenger_exit, messenger_enter, List.getLast?_concat, List.dropLast_concat]
  · intro st self hne
    cases hl : st.getLast? with
    | none => exact ⟨.indexError, by simp [messenger_exit, hl]⟩
    | some top =>
      have : top ≠ self := by
        intro he
        rw [he] at hl
        exact hne hl
      exact ⟨.assertError, by simp [messenger_exit, hl, this]⟩
  · intro self body st htop
    simp [messenger_with, messenger_exit, htop]

/-- Witness for C6: exit rejects a stack whose top is a different handler
object, and the pop runs even when the body fails. -/
theorem c6_stack_balance_witness :
    (messenger_exit (messenger_enter [1, 2] 3) 3 = .ok [1, 2]) ∧
    (∃ e, messenger_exit [1, 2] 3 = .error e) ∧
    (messenger_with 0 (fun st => (.error .assertError, st)) [] =
      ((.error .assertError : Except PyErr Unit),
        ((fun (st : List Nat) => ((.error .assertError : Except PyErr Unit), st))
          (messenger_enter [] 0)).2.dropLast)) :=
  ⟨c6_stack_balance.1 [1, 2] 3,
   c6_stack_balance.2.1 [1, 2] 3 (by decide),
   c6_stack_balance.2.2 0 (fun st => (.error .assertError, st)) [] rfl⟩

lemma postprocess_traces_nodup {hd h1 : Handler} {m : Msg}
    (hn : ∀ tr, hd = Handler.htrace tr → (tr.map Prod.fst).Nodup)
    (hok : postprocess_message hd m = .ok h1) :
    ∀ tr, h1 = Handler.htrace tr → (tr.map Prod.fst).Nodup := by
  cases hd with
  | htrace tr0 =>
    by_cases hc : contains_name tr0 m.name
    · simp [postprocess_message, hc] at hok
    · simp only [postprocess_message, hc, Bool.false_eq_true, if_false] at hok
      cases hok
      intro tr htr
      cases htr
      rw [List.map_append]
      simp only [List.map_cons, List.map_nil]
      rw [List.nodup_append]
      refine ⟨hn tr0 rfl, List.nodup_singleton _, ?_⟩
      intro a ha hb
      simp only [List.mem_singleton] at hb
      subst hb
      exact ((contains_name_false_iff tr0 m.name).mp (by simpa using hc)) ha
  | hreplay g =>
    cases hok
    intro tr htr
    exact hn tr htr
  | hblock f =>
    cases hok
    intro tr htr
    exact hn tr htr
  | hplate s dm =>
    cases hok
    intro tr htr
    exact hn tr htr

lemma postPhase_traces_nodup {l : List Handler} {m : Msg} {seg : List Handler}
    (hn : traces_nodup l) (hok : postPhase l m = .ok seg) : traces_nodup seg := by
  induction l generalizing seg with
  | nil =>
    cases hok
    intro tr htr
    exact absurd htr (List.not_mem_nil _)
  | cons hd tl ih =>
    cases hpp : postprocess_message hd m with
    | error e => simp [postPhase, hpp] at hok
    | ok h1 =>
      cases hrest : postPhase tl m with
      | error e => simp [postPhase, hpp, hrest] at hok
      | ok rest1 =>
        simp only [postPhase, hpp, hrest] at hok
        cases hok
        have htl : traces_nodup tl := fun tr htr => hn tr (List.mem_cons_of_mem _ htr)
        have hhd : ∀ tr, hd = Handler.htrace tr → (tr.map Prod.fst).Nodup :=
          fun tr htr => hn tr (htr ▸ List.mem_cons_self hd tl)
        intro tr htr
        rcases List.mem_cons.mp htr with heq | hmem
        · exact postprocess_traces_nodup hhd hpp tr heq.symm
        · exact ih htl hrest tr hmem

lemma apply_stack_traces_nodup {m : Msg} {w : World} {r : Msg × World}
    (hn : traces_nodup w.stack) (hok : apply_stack m w = .ok r) :
    traces_nodup r.2.stack := by
  simp only [apply_stack] at hok
  cases hf : fill_value (processChain w.stack.reverse m).1 w.store w.draws with
  | error e => rw [hf] at hok; cases hok
  | ok filled =>
    rw [hf] at hok
    simp only at hok
    by_cases he : w.stack.isEmpty
    · simp [he] at hok
    · simp only [he, Bool.false_eq_true, if_false] at hok
      cases hp : postPhase (w.stack.drop (w.stack.length - (processChain w.stack.reverse m).2))
          filled.1 with
      | error e => rw [hp] at hok; cases hok
      | ok seg =>
        rw [hp] at hok
        cases hok
        have hdropn : traces_nodup
            (w.stack.drop (w.stack.length - (processChain w.stack.reverse m).2)) :=
          fun tr htr => hn tr (List.drop_subset _ _ htr)
        have hsegn : traces_nodup seg := postPhase_traces_nodup hdropn hp
        intro tr htr
        rcases List.mem_append.mp htr with h | h
        · exact hn tr (List.take_subset _ _ h)
        · exact hsegn tr h

lemma runCmd_traces_nodup {c : Cmd} {w : World} {r : Option Int × World}
    (hn : traces_nodup w.stack) (hok : runCmd c w = .ok r) :
    traces_nodup r.2.stack := by
  cases c with
  | csample name d obs =>
    simp only [runCmd, sample] at hok
    by_cases he : w.stack.isEmpty
    · simp only [he, if_true] at hok
      cases hok
      exact hn
    · simp only [he, Bool.false_eq_true, if_false] at hok
      cases has : apply_stack (sample_initial_msg name d obs) w with
      | error e => rw [has] at hok; cases hok
      | ok r2 =>
        rw [has] at hok
        cases hok
        exact apply_stack_traces_nodup hn has
  | cparam name init cn =>
    simp only [runCmd, param] at hok
    by_cases he : w.stack.isEmpty
    · simp only [he, if_true] at hok
      cases hpf : param_fn name init cn w.store with
      | error e => rw [hpf] at hok; cases hok
      | ok pr =>
        rw [hpf] at hok
        cases hok
        exact hn
    · simp only [he, Bool.false_eq_true, if_false] at hok
      cases has : apply_stack (param_initial_msg name init cn) w with
      | error e => rw [has] at hok; cases hok
      | ok r2 =>
        rw [has] at hok
        cases hok
        exact apply_stack_traces_nodup hn has

lemma runModel_traces_nodup {cmds : List Cmd} {w w2 : World}
    (hn : traces_nodup w.stack) (hok : runModel cmds w = .ok w2) :
    traces_nodup w2.stack := by
  induction cmds generalizing w with
  | nil => cases hok; exact hn
  | cons c rest ih =>
    simp only [runModel] at hok
    cases hrc : runCmd c w with
    | error e => rw [hrc] at hok; cases hok
    | ok r =>
      rw [hrc] at hok
      exact ih (runCmd_traces_nodup hn hrc) hok

/-- C7: trace uniqueness — running any model preserves the invariant that
every trace handler's mapping has pairwise distinct names (a fresh scope
starts empty, so every trace built by one Trace scope has distinct names);
dispatching a message whose name is already recorded in the enclosing
trace is fatal via the duplicate-name assertion in the trace post-hook;
and on success the post-hook stores a snapshot copy of the message keyed
by its name. -/
theorem c7_trace_unique_names :
    (∀ (cmds : List Cmd) (w w2 : World),
      traces_nodup w.stack → runModel cmds w = .ok w2 → traces_nodup w2.stack) ∧
    (∀ (tr : TraceMap) (store : ParamStore) (k : Nat) (name : String) (d : Dist)
        (obs : Option Int),
      contains_name tr name = true →
      sample name d obs ⟨[.htrace tr], store, k⟩ = .error .assertError) ∧
    (∀ (tr : TraceMap) (m : Msg),
      contains_name tr m.name = false →
      postprocess_message (.htrace tr) m = .ok (.htrace (tr ++ [(m.name, m)])) ∧
      lookup_trace (tr ++ [(m.name, m)]) m.name = some m) := by
  refine ⟨?_, ?_, ?_⟩
  · intro cmds w w2 hn hok
    exact runModel_traces_nodup hn hok
  · intro tr store k name d obs hc
    cases obs with
    | some v =>
      simp [sample, apply_stack, processChain, process_message, fill_value,
        eval_descriptor, postPhase, postprocess_message, sample_initial_msg, hc]
    | none =>
      simp [sample, apply_stack, processChain, process_message, fill_value,
        eval_descriptor, postPhase, postprocess_message, sample_initial_msg, hc]
  · intro tr m hc
    have hlook : lookup_trace tr m.name = none := by
      have := hc
      unfold contains_name at this
      cases hl : lookup_trace tr m.name with
      | none => rfl
      | some mm => rw [hl] at this; cases this
    refine ⟨by simp [postprocess_message, hc], ?_⟩
    rw [lookup_trace_append_of_none _ hlook]
    simp [lookup_trace]

/-- Witness for C7: the empty run preserves the invariant, a duplicate
site name aborts the dispatch, and a fresh name is recorded as a snapshot. -/
theorem c7_trace_unique_names_witness :
    traces_nodup (World.mk [] [] 0).stack ∧
    (sample ("x") ⟨5, fun _ => 0, []⟩ (some 1)
        ⟨[.htrace [(("x"), sample_initial_msg ("x") ⟨5, fun _ => 0, []⟩ (some 1))]], [], 0⟩ =
      .error .assertError) ∧
    (postprocess_message (.htrace [])
        (sample_initial_msg ("x") ⟨5, fun _ => 0, []⟩ (some 1)) =
      .ok (.htrace ([] ++ [((sample_initial_msg ("x") ⟨5, fun _ => 0, []⟩ (some 1)).name,
        sample_initial_msg ("x") ⟨5, fun _ => 0, []⟩ (some 1))])) ∧
      lookup_trace ([] ++ [((sample_initial_msg ("x") ⟨5, fun _ => 0, []⟩ (some 1)).name,
          sample_initial_msg ("x") ⟨5, fun _ => 0, []⟩ (some 1))])
        (sample_initial_msg ("x") ⟨5, fun _ => 0, []⟩ (some 1)).name =
        some (sample_initial_msg ("x") ⟨5, fun _ => 0, []⟩ (some 1))) :=
  ⟨c7_trace_unique_names.1 [] ⟨[], [], 0⟩ ⟨[], [], 0⟩
      (fun _ htr => absurd htr (List.not_mem_nil _)) rfl,
   c7_trace_unique_names.2.1 [(("x"), sample_initial_msg ("x") ⟨5, fun _ => 0, []⟩ (some 1))]
      [] 0 ("x") ⟨5, fun _ => 0, []⟩ (some 1) rfl,
   c7_trace_unique_names.2.2 [] (sample_initial_msg ("x") ⟨5, fun _ => 0, []⟩ (some 1)) rfl⟩

/-- C8 counterexample: with an empty handler stack and an observed value,
`sample("x", d, obs=5)` takes the bypass path `return fn()` and yields a
fresh draw (7), whereas the dispatch protocol over zero handlers leaves the
pre-filled observation in place and yields 5 without drawing — the claimed
equivalence fails at this input. -/
theorem c8_bypass_counterexample :
    sample ("x") ⟨7, fun _ => 0, []⟩ (some 5) ⟨[], [], 0⟩ = .ok (some 7, ⟨[], [], 1⟩) ∧
    dispatch_zero_spec (sample_initial_msg ("x") ⟨7, fun _ => 0, []⟩ (some 5)) [] 0 =
      .ok (some 5, [], 0) ∧
    (some (7 : Int)) ≠ some 5 :=
  ⟨rfl, rfl, by decide⟩

/-- C8 (amended): the empty-stack bypass of `sample` without an observation
and of `param` produces an observable result identical to running the
dispatch protocol over a stack of zero handlers; but `sample` with an
observed value supplied diverges — the bypass ignores the observation and
returns a fresh draw, while zero-handler dispatch would return the
observation without drawing. -/
theorem c8_bypass_amended :
    (∀ (name : String) (d : Dist) (store : ParamStore) (k : Nat),
      sample name d none ⟨[], store, k⟩ =
        (dispatch_zero_spec (sample_initial_msg name d none) store k).map
          (fun r => (r.1, World.mk [] r.2.1 r.2.2))) ∧
    (∀ (name : String) (init : Option Int) (c : Constraint) (store : ParamStore) (k : Nat),
      param name init c ⟨[], store, k⟩ =
        (dispatch_zero_spec (param_initial_msg name init c) store k).map
          (fun r => (r.1, World.mk [] r.2.1 r.2.2))) ∧
    (∀ (name : String) (d : Dist) (v : Int) (store : ParamStore) (k : Nat),
      sample name d (some v) ⟨[], store, k⟩ = .ok (some d.draw, ⟨[], store, k + 1⟩) ∧
      dispatch_zero_spec (sample_initial_msg name d (some v)) store k =
        .ok (some v, store, k)) := by
  refine ⟨?_, ?_, ?_⟩
  · intro name d store k
    rfl
  · intro name init c store k
    cases hpf : param_fn name init c store with
    | error e =>
      simp [param, dispatch_zero_spec, param_initial_msg, eval_descriptor, hpf, Except.map]
    | ok pr =>
      simp [param, dispatch_zero_spec, param_initial_msg, eval_descriptor, hpf, Except.map]
  · intro name d v store k
    exact ⟨rfl, rfl⟩

/-- C9: `PlateMessenger.__iter__` returns `range(self.size)` — a `range`
object, which has no `__next__` method — so the for-statement's `iter()`
protocol rejects it with `TypeError: iter() returned non-iterator` for
every size; iterating over the handler never yields the indices
`0..size-1`, although the returned range object does stand for exactly
those indices (so `return iter(range(self.size))` would have satisfied the
iteration contract). -/
theorem c9_plate_iter_not_an_iterator :
    (∀ n, py_for_plate n = .error .typeError) ∧
    (plateMessenger_iter 3).contents = [0, 1, 2] := by
  refine ⟨fun n => rfl, ?_⟩
  simp [plateMessenger_iter, PyIterable.contents]
  decide

lemma elbo_foldl_add (tr : TraceMap) (acc : Int) :
    tr.foldl (fun acc site =>
        if site.2.type = MsgType.sample then acc + site_log_prob site.2 else acc) acc =
      acc + sample_log_sum tr := by
  induction tr generalizing acc with
  | nil => simp [sample_log_sum]
  | cons e rest ih =>
    by_cases ht : e.2.type = MsgType.sample
    · simp only [List.foldl_cons, if_pos ht]
      rw [ih]
      simp [sample_log_sum, List.filter_cons, ht]
      omega
    · simp only [List.foldl_cons, if_neg ht]
      rw [ih]
      simp [sample_log_sum, List.filter_cons, ht]

lemma elbo_foldl_sub (tr : TraceMap) (acc : Int) :
    tr.foldl (fun acc site =>
        if site.2.type = MsgType.sample then acc - site_log_prob site.2 else acc) acc =
      acc - sample_log_sum tr := by
  induction tr generalizing acc with
  | nil => simp [sample_log_sum]
  | cons e rest ih =>
    by_cases ht : e.2.type = MsgType.sample
    · simp only [List.foldl_cons, if_pos ht]
      rw [ih]
      simp [sample_log_sum, List.filter_cons, ht]
      omega
    · simp only [List.foldl_cons, if_neg ht]
      rw [ih]
      simp [sample_log_sum, List.filter_cons, ht]

lemma elbo_eq_sums {model guide : List Cmd} {w : World} {gt mt : TraceMap} {w1 w2 : World}
    (hg : get_trace guide w = .ok (gt, w1))
    (hm : get_trace_replay model gt w1 = .ok (mt, w2)) :
    elbo model guide w = .ok (-(sample_log_sum mt - sample_log_sum gt), w2) := by
  simp only [elbo, hg, hm]
  rw [elbo_foldl_add, elbo_foldl_sub]
  have harith : 0 + sample_log_sum mt - sample_log_sum gt =
      sample_log_sum mt - sample_log_sum gt := by omega
  rw [harith]

/-- C3: `elbo(model, guide)` equals the negation of (the sum of
`log_prob(value)` over the sample-type sites of the model trace obtained by
running the model under replay of the guide trace, minus the same sum over
the sample-type sites of the guide trace); for a model and guide with one
shared sample site it equals
`-(D_model.log_prob(v) - D_guide.log_prob(v))` for the guide's drawn `v`. -/
theorem c3_elbo_value :
    (∀ (model guide : List Cmd) (w : World) (gt mt : TraceMap) (w1 w2 : World),
      get_trace guide w = .ok (gt, w1) →
      get_trace_replay model gt w1 = .ok (mt, w2) →
      elbo model guide w = .ok (-(sample_log_sum mt - sample_log_sum gt), w2)) ∧
    (∀ (nm : String) (dm dg : Dist) (store : ParamStore) (k : Nat),
      elbo [Cmd.csample nm dm none] [Cmd.csample nm dg none] ⟨[], store, k⟩ =
        .ok (-(dm.logProb (some dg.draw) - dg.logProb (some dg.draw)),
             ⟨[], store, k + 1⟩)) := by
  constructor
  · intro model guide w gt mt w1 w2 hg hm
    exact elbo_eq_sums hg hm
  · intro nm dm dg store k
    have hg : get_trace [Cmd.csample nm dg none] ⟨[], store, k⟩ =
        .ok ([(nm, { sample_initial_msg nm dg none with value := some dg.draw })],
             ⟨[], store, k + 1⟩) := by
      simp [get_trace, runModel, runCmd, sample, apply_stack, processChain, process_message,
        fill_value, eval_descriptor, postPhase, postprocess_message, contains_name,
        lookup_trace, sample_initial_msg]
    have hm : get_trace_replay [Cmd.csample nm dm none]
        [(nm, { sample_initial_msg nm dg none with value := some dg.draw })]
        ⟨[], store, k + 1⟩ =
        .ok ([(nm, { sample_initial_msg nm dm none with value := some dg.draw })],
             ⟨[], store, k + 1⟩) := by
      simp [get_trace_replay, replay_run, runModel, runCmd, sample, apply_stack, processChain,
        process_message, fill_value, eval_descriptor, postPhase, postprocess_message,
        contains_name, lookup_trace, sample_initial_msg]
    rw [elbo_eq_sums hg hm]
    simp [sample_log_sum, site_log_prob, sample_initial_msg]

/-- Witness for C3: the empty model and guide produce empty traces and an
ELBO of minus (zero minus zero). -/
theorem c3_elbo_value_witness :
    elbo [] [] ⟨[], [], 0⟩ = .ok (-(sample_log_sum [] - sample_log_sum []), ⟨[], [], 0⟩) :=
  c3_elbo_value.1 [] [] ⟨[], [], 0⟩ [] [] ⟨[], [], 0⟩ ⟨[], [], 0⟩ rfl rfl

end Minipyro
